import Mathlib

/-!
Shallow embedding of `src/progetto/secure_password_generator.py`.

The Python module builds character pools from a `PasswordPolicy`, generates
passwords with one guaranteed character per enabled category plus random
fillers followed by a secure shuffle, and estimates entropy in bits.

Randomness is modelled by parameters: `pick : Nat → List Char → Char` stands
for the successive `secrets.choice` draws (the `Nat` is the draw index, so
distinct draws may return distinct characters), and
`shuffle : List Char → List Char` stands for `_RNG.shuffle`.  Theorems
hypothesise only that `pick` returns a member of its (non-empty) argument and
that `shuffle` returns a permutation, which covers every possible run of the
Python code.

Python `ValueError`s are modelled by the explicit error type `PoolError`,
whose constructors follow the three distinct error messages of the source.
-/

/-- Error outcomes of the pool builder and generator, one constructor per
distinct `ValueError` message of the Python source. -/
inductive PoolError where
  | noCategorySelected
  | emptyCategory
  | lengthTooShort
deriving DecidableEq, Repr

/-- Python `MIN_PASSWORD_LENGTH = 4`. -/
def MIN_PASSWORD_LENGTH : Int := 4

/-- Python `AMBIGUOUS = set("Il1O0o|`~'\" ")` (backtick, tilde, apostrophe,
double quote and space written as escapes). -/
def AMBIGUOUS : List Char := "Il1O0o|\x60~\x27\x22 ".toList

/-- Python `string.ascii_lowercase`. -/
def ascii_lowercase : List Char := "abcdefghijklmnopqrstuvwxyz".toList

/-- Python `string.ascii_uppercase`. -/
def ascii_uppercase : List Char := "ABCDEFGHIJKLMNOPQRSTUVWXYZ".toList

/-- Python `string.digits`. -/
def digits : List Char := "0123456789".toList

/-- Python `DEFAULT_SYMBOLS = string.punctuation` (braces and the quote
characters written as escapes). -/
def DEFAULT_SYMBOLS : List Char :=
  "!\x22#$%&\x27()*+,-./:;<=>?@[\\]^_\x60\x7b|\x7d~".toList

/-- Python `PasswordPolicy` dataclass: four category flags plus the
ambiguous-character admission flag. -/
structure PasswordPolicy where
  use_lower : Bool := true
  use_upper : Bool := true
  use_digits : Bool := true
  use_symbols : Bool := true
  allow_ambiguous : Bool := false
deriving DecidableEq, Repr

/-- Python `_filter_ambiguous`: return `chars` unchanged when ambiguous
characters are allowed, otherwise drop every member of `AMBIGUOUS`. -/
def filter_ambiguous (chars : List Char) (allow_ambiguous : Bool) : List Char :=
  if allow_ambiguous then chars
  else chars.filter (fun ch => decide (ch ∉ AMBIGUOUS))

/-- Python `_non_empty_or_raise`: raise (here: return `emptyCategory`) when
some listed category is empty. -/
def non_empty_or_raise (cats : List (List Char)) : Except PoolError Unit :=
  if cats.any (fun cat => cat.isEmpty) then .error .emptyCategory else .ok ()

/-- The `parts` / `cats` list that both `build_full_pool` and
`_category_pools` construct with identical code: one ambiguity-filtered
alphabet per enabled category, in the fixed order lower, upper, digits,
symbols. -/
def pool_parts (policy : PasswordPolicy) : List (List Char) :=
  (if policy.use_lower then [filter_ambiguous ascii_lowercase policy.allow_ambiguous] else [])
    ++ (if policy.use_upper then [filter_ambiguous ascii_uppercase policy.allow_ambiguous] else [])
    ++ (if policy.use_digits then [filter_ambiguous digits policy.allow_ambiguous] else [])
    ++ (if policy.use_symbols then [filter_ambiguous DEFAULT_SYMBOLS policy.allow_ambiguous] else [])

/-- Python `"".join(sorted(set(pool)))`: the distinct characters of `pool`
in ascending order. -/
def sorted_dedup (pool : List Char) : List Char :=
  List.insertionSort (fun a b => a ≤ b) pool.dedup

/-- Python `build_full_pool`: concatenate the enabled filtered alphabets,
raise `noCategorySelected` when no category is enabled, raise
`emptyCategory` when an enabled category filtered to nothing, then
deduplicate and sort. -/
def build_full_pool (policy : PasswordPolicy) : Except PoolError (List Char) :=
  let parts := pool_parts policy
  if parts.isEmpty then .error .noCategorySelected
  else
    match non_empty_or_raise parts with
    | .error e => .error e
    | .ok () => .ok (sorted_dedup parts.flatten)

/-- Python `_category_pools`: the same `cats` list, checked only by
`_non_empty_or_raise` — note there is no zero-category check here. -/
def category_pools (policy : PasswordPolicy) : Except PoolError (List (List Char)) :=
  let cats := pool_parts policy
  match non_empty_or_raise cats with
  | .error e => .error e
  | .ok () => .ok cats

/-- Python `_require_min_length`: raise `lengthTooShort` below the minimum. -/
def require_min_length (length : Int) : Except PoolError Unit :=
  if length < MIN_PASSWORD_LENGTH then .error .lengthTooShort else .ok ()

/-- One `pick` draw per category, with increasing draw indices starting at
`i`; models the comprehension `[secrets.choice(cat) for cat in cats]`. -/
def pick_each (pick : Nat → List Char → Char) : Nat → List (List Char) → List Char
  | _, [] => []
  | i, cat :: rest => pick i cat :: pick_each pick (i + 1) rest

/-- Python `generate_password`: check the minimum length, obtain the
category pools and the full pool, draw one guaranteed character per
category, fill up to `length` with draws from the full pool (Python
`range(remaining)` of a non-positive `remaining` is empty, hence `Int.toNat`),
then shuffle. -/
def generate_password (length : Int) (policy : PasswordPolicy)
    (pick : Nat → List Char → Char) (shuffle : List Char → List Char) :
    Except PoolError (List Char) :=
  match require_min_length length with
  | .error e => .error e
  | .ok () =>
    match category_pools policy with
    | .error e => .error e
    | .ok cats =>
      match build_full_pool policy with
      | .error e => .error e
      | .ok full_pool =>
        let guaranteed := pick_each pick 0 cats
        let remaining := length - (guaranteed.length : Int)
        let fillers := (List.range remaining.toNat).map
          (fun i => pick (cats.length + i) full_pool)
        .ok (shuffle (guaranteed ++ fillers))

/-- Python `estimate_entropy_bits`: `0.0` in the degenerate cases, otherwise
`length * log2(pool_size)` (idealised over the reals). -/
noncomputable def estimate_entropy_bits (length : Int) (pool_size : Int) : ℝ :=
  if length ≤ 0 ∨ pool_size ≤ 1 then 0
  else (length : ℝ) * Real.logb 2 (pool_size : ℝ)

instance {ε α : Type} [DecidableEq ε] [DecidableEq α] : DecidableEq (Except ε α)
  | .error a, .error b => decidable_of_iff (a = b) (by simp)
  | .error _, .ok _ => isFalse (by simp)
  | .ok _, .error _ => isFalse (by simp)
  | .ok a, .ok b => decidable_of_iff (a = b) (by simp)

/-- A policy has at least one enabled category. -/
def hasCategory (policy : PasswordPolicy) : Prop :=
  policy.use_lower = true ∨ policy.use_upper = true ∨
    policy.use_digits = true ∨ policy.use_symbols = true

instance (policy : PasswordPolicy) : Decidable (hasCategory policy) := by
  unfold hasCategory; infer_instance

section Lemmas

lemma mem_if_singleton {b : Bool} {x cat : List Char} :
    (cat ∈ if b then [x] else ([] : List (List Char))) ↔ b = true ∧ cat = x := by
  cases b <;> simp

lemma mem_pool_parts {policy : PasswordPolicy} {cat : List Char} :
    cat ∈ pool_parts policy ↔
      (policy.use_lower = true ∧ cat = filter_ambiguous ascii_lowercase policy.allow_ambiguous) ∨
      (policy.use_upper = true ∧ cat = filter_ambiguous ascii_uppercase policy.allow_ambiguous) ∨
      (policy.use_digits = true ∧ cat = filter_ambiguous digits policy.allow_ambiguous) ∨
      (policy.use_symbols = true ∧ cat = filter_ambiguous DEFAULT_SYMBOLS policy.allow_ambiguous) := by
  simp [pool_parts, List.mem_append, mem_if_singleton]

lemma filter_lower_ne_nil (b : Bool) : filter_ambiguous ascii_lowercase b ≠ [] := by
  cases b <;> decide

lemma filter_upper_ne_nil (b : Bool) : filter_ambiguous ascii_uppercase b ≠ [] := by
  cases b <;> decide

lemma filter_digits_ne_nil (b : Bool) : filter_ambiguous digits b ≠ [] := by
  cases b <;> decide

lemma filter_symbols_ne_nil (b : Bool) : filter_ambiguous DEFAULT_SYMBOLS b ≠ [] := by
  cases b <;> decide

lemma pool_parts_all_ne_nil (policy : PasswordPolicy) :
    ∀ cat ∈ pool_parts policy, cat ≠ [] := by
  intro cat hc
  rcases mem_pool_parts.mp hc with ⟨_, rfl⟩ | ⟨_, rfl⟩ | ⟨_, rfl⟩ | ⟨_, rfl⟩
  · exact filter_lower_ne_nil _
  · exact filter_upper_ne_nil _
  · exact filter_digits_ne_nil _
  · exact filter_symbols_ne_nil _

lemma non_empty_or_raise_pool_parts (policy : PasswordPolicy) :
    non_empty_or_raise (pool_parts policy) = Except.ok () := by
  have h : ((pool_parts policy).any (fun cat => cat.isEmpty)) = false := by
    rw [List.any_eq_false]
    intro cat hc
    simpa using pool_parts_all_ne_nil policy cat hc
  simp [non_empty_or_raise, h]

lemma category_pools_eq_ok (policy : PasswordPolicy) :
    category_pools policy = Except.ok (pool_parts policy) := by
  simp [category_pools, non_empty_or_raise_pool_parts]

lemma pool_parts_ne_nil {policy : PasswordPolicy} (hcat : hasCategory policy) :
    pool_parts policy ≠ [] := by
  rcases hcat with h | h | h | h
  · exact List.ne_nil_of_mem (mem_pool_parts.mpr (Or.inl ⟨h, rfl⟩))
  · exact List.ne_nil_of_mem (mem_pool_parts.mpr (Or.inr (Or.inl ⟨h, rfl⟩)))
  · exact List.ne_nil_of_mem (mem_pool_parts.mpr (Or.inr (Or.inr (Or.inl ⟨h, rfl⟩))))
  · exact List.ne_nil_of_mem (mem_pool_parts.mpr (Or.inr (Or.inr (Or.inr ⟨h, rfl⟩))))

lemma mem_sorted_dedup {a : Char} {l : List Char} : a ∈ sorted_dedup l ↔ a ∈ l := by
  unfold sorted_dedup
  rw [List.mem_insertionSort]
  exact List.mem_dedup

lemma sorted_dedup_nodup (l : List Char) : (sorted_dedup l).Nodup :=
  ((List.perm_insertionSort _ _).nodup_iff).mpr (List.nodup_dedup l)

lemma sorted_dedup_sorted (l : List Char) :
    List.Sorted (fun a b => a ≤ b) (sorted_dedup l) :=
  List.sorted_insertionSort _ _

lemma build_full_pool_eq_ok {policy : PasswordPolicy} (hcat : hasCategory policy) :
    build_full_pool policy = Except.ok (sorted_dedup (pool_parts policy).flatten) := by
  have hne : (pool_parts policy).isEmpty = false := by
    simpa using pool_parts_ne_nil hcat
  simp [build_full_pool, hne, non_empty_or_raise_pool_parts]

lemma full_pool_ne_nil {policy : PasswordPolicy} (hcat : hasCategory policy) :
    sorted_dedup (pool_parts policy).flatten ≠ [] := by
  obtain ⟨cat, hc⟩ := List.exists_mem_of_ne_nil _ (pool_parts_ne_nil hcat)
  obtain ⟨c, hcc⟩ := List.exists_mem_of_ne_nil _ (pool_parts_all_ne_nil policy cat hc)
  exact List.ne_nil_of_mem (mem_sorted_dedup.mpr (List.mem_flatten.mpr ⟨cat, hc, hcc⟩))

lemma length_pick_each (pick : Nat → List Char → Char) :
    ∀ (i : Nat) (cats : List (List Char)), (pick_each pick i cats).length = cats.length := by
  intro i cats
  induction cats generalizing i with
  | nil => rfl
  | cons cat rest ih => simp [pick_each, ih]

lemma mem_pick_each {pick : Nat → List Char → Char} {c : Char} :
    ∀ {i : Nat} {cats : List (List Char)}, c ∈ pick_each pick i cats →
      ∃ j cat, cat ∈ cats ∧ c = pick j cat := by
  intro i cats
  induction cats generalizing i with
  | nil => intro h; cases h
  | cons cat rest ih =>
    intro h
    rcases List.mem_cons.mp h with h | h
    · exact ⟨i, cat, List.mem_cons_self _ _, h⟩
    · obtain ⟨j, cat', hmem, rfl⟩ := ih h
      exact ⟨j, cat', List.mem_cons_of_mem _ hmem, rfl⟩

lemma pick_each_coverage {pick : Nat → List Char → Char} {cat : List Char} :
    ∀ {i : Nat} {cats : List (List Char)}, cat ∈ cats →
      ∃ j, pick j cat ∈ pick_each pick i cats := by
  intro i cats
  induction cats generalizing i with
  | nil => intro h; cases h
  | cons hd rest ih =>
    intro h
    rcases List.mem_cons.mp h with rfl | h
    · exact ⟨i, List.mem_cons_self _ _⟩
    · obtain ⟨j, hj⟩ := ih (i := i + 1) h
      exact ⟨j, List.mem_cons_of_mem _ hj⟩

lemma pool_parts_length_le (policy : PasswordPolicy) : (pool_parts policy).length ≤ 4 := by
  rcases policy with ⟨l, u, d, s, a⟩
  cases l <;> cases u <;> cases d <;> cases s <;> simp [pool_parts]

lemma generate_password_eq (length : Int) (policy : PasswordPolicy)
    (pick : Nat → List Char → Char) (shuffle : List Char → List Char)
    (hlen : MIN_PASSWORD_LENGTH ≤ length) (hcat : hasCategory policy) :
    generate_password length policy pick shuffle =
      Except.ok (shuffle (pick_each pick 0 (pool_parts policy) ++
        (List.range (length - ((pool_parts policy).length : Int)).toNat).map
          (fun i => pick ((pool_parts policy).length + i)
            (sorted_dedup (pool_parts policy).flatten)))) := by
  have h1 : require_min_length length = Except.ok () := by
    unfold require_min_length
    rw [if_neg (by omega)]
  simp [generate_password, h1, category_pools_eq_ok, build_full_pool_eq_ok hcat,
    length_pick_each]

end Lemmas

section MoreLemmas

lemma pool_parts_eq_nil {policy : PasswordPolicy} (h : ¬ hasCategory policy) :
    pool_parts policy = [] := by
  rcases policy with ⟨l, u, d, s, a⟩
  unfold hasCategory at h
  push_neg at h
  obtain ⟨h1, h2, h3, h4⟩ := h
  simp only [Bool.not_eq_true] at h1 h2 h3 h4
  simp [pool_parts, h1, h2, h3, h4]

lemma build_full_pool_ok_inv {policy : PasswordPolicy} {pool : List Char}
    (h : build_full_pool policy = Except.ok pool) :
    pool = sorted_dedup (pool_parts policy).flatten := by
  by_cases hcat : hasCategory policy
  · rw [build_full_pool_eq_ok hcat] at h
    simpa using h.symm
  · have hnil := pool_parts_eq_nil hcat
    simp [build_full_pool, hnil] at h

lemma generate_password_spec (length : Int) (policy : PasswordPolicy)
    (pick : Nat → List Char → Char) (shuffle : List Char → List Char)
    (hpick : ∀ i l, l ≠ [] → pick i l ∈ l)
    (hshuffle : ∀ l, List.Perm (shuffle l) l)
    (hlen : MIN_PASSWORD_LENGTH ≤ length) (hcat : hasCategory policy) :
    ∃ pwd, generate_password length policy pick shuffle = Except.ok pwd ∧
      (pwd.length : Int) = length ∧
      (∀ c ∈ pwd, c ∈ sorted_dedup (pool_parts policy).flatten) ∧
      (∀ cat ∈ pool_parts policy, ∃ c, c ∈ pwd ∧ c ∈ cat) := by
  have hle4 : ((pool_parts policy).length : Int) ≤ 4 := by
    exact_mod_cast pool_parts_length_le policy
  have hmin : (4 : Int) ≤ length := hlen
  have h0 : (0 : Int) ≤ length - ((pool_parts policy).length : Int) := by omega
  refine ⟨_, generate_password_eq length policy pick shuffle hlen hcat, ?_, ?_, ?_⟩
  · rw [(hshuffle _).length_eq, List.length_append, length_pick_each,
      List.length_map, List.length_range]
    push_cast
    rw [Int.toNat_of_nonneg h0]
    omega
  · intro c hc
    rcases List.mem_append.mp ((hshuffle _).mem_iff.mp hc) with h | h
    · obtain ⟨j, cat, hcm, rfl⟩ := mem_pick_each h
      exact mem_sorted_dedup.mpr (List.mem_flatten.mpr
        ⟨cat, hcm, hpick j cat (pool_parts_all_ne_nil policy cat hcm)⟩)
    · obtain ⟨i, _, rfl⟩ := List.mem_map.mp h
      exact hpick _ _ (full_pool_ne_nil hcat)
  · intro cat hcm
    obtain ⟨j, hj⟩ := pick_each_coverage (i := 0) hcm
    exact ⟨pick j cat,
      (hshuffle _).mem_iff.mpr (List.mem_append.mpr (Or.inl hj)),
      hpick j cat (pool_parts_all_ne_nil policy cat hcm)⟩

/-- A concrete admissible choice function, used by the witnesses below. -/
def pick0 : Nat → List Char → Char := fun _ l => l.headD 'a'

lemma pick0_mem : ∀ (i : Nat) (l : List Char), l ≠ [] → pick0 i l ∈ l := by
  intro i l hl
  cases l with
  | nil => exact absurd rfl hl
  | cons a t => simp [pick0]

end MoreLemmas

/-- C1 (length fidelity): for every `length ≥ 4` and every policy with at
least one enabled category, `generate_password` succeeds — for any admissible
choice function and any permutation-valued shuffle — with a password of
exactly `length` characters, each a member of the pool returned by
`build_full_pool`. -/
theorem C1_length_fidelity (length : Int) (policy : PasswordPolicy)
    (pick : Nat → List Char → Char) (shuffle : List Char → List Char)
    (hpick : ∀ i l, l ≠ [] → pick i l ∈ l)
    (hshuffle : ∀ l, List.Perm (shuffle l) l)
    (hlen : 4 ≤ length) (hcat : hasCategory policy) :
    ∃ pool pwd, build_full_pool policy = Except.ok pool ∧
      generate_password length policy pick shuffle = Except.ok pwd ∧
      (pwd.length : Int) = length ∧ ∀ c ∈ pwd, c ∈ pool := by
  obtain ⟨pwd, h1, h2, h3, _⟩ :=
    generate_password_spec length policy pick shuffle hpick hshuffle hlen hcat
  exact ⟨_, pwd, build_full_pool_eq_ok hcat, h1, h2, h3⟩

theorem C1_length_fidelity_witness :
    ∃ pool pwd, build_full_pool ⟨true, true, true, true, false⟩ = Except.ok pool ∧
      generate_password 16 ⟨true, true, true, true, false⟩ pick0 id = Except.ok pwd ∧
      (pwd.length : Int) = 16 ∧ ∀ c ∈ pwd, c ∈ pool :=
  C1_length_fidelity 16 ⟨true, true, true, true, false⟩ pick0 id pick0_mem
    (fun l => List.Perm.refl l) (by norm_num) (Or.inl rfl)

/-- C2 (category coverage): for every policy with at least one enabled
category and every `length` at least the number of enabled categories and at
least 4, the generated password contains at least one character from each
enabled category's ambiguity-filtered alphabet. -/
theorem C2_category_coverage (length : Int) (policy : PasswordPolicy)
    (pick : Nat → List Char → Char) (shuffle : List Char → List Char)
    (hpick : ∀ i l, l ≠ [] → pick i l ∈ l)
    (hshuffle : ∀ l, List.Perm (shuffle l) l)
    (hlen : 4 ≤ length) (_hlen2 : ((pool_parts policy).length : Int) ≤ length)
    (hcat : hasCategory policy) :
    ∃ pwd, generate_password length policy pick shuffle = Except.ok pwd ∧
      ∀ cat ∈ pool_parts policy, ∃ c, c ∈ pwd ∧ c ∈ cat := by
  obtain ⟨pwd, h1, _, _, h4⟩ :=
    generate_password_spec length policy pick shuffle hpick hshuffle hlen hcat
  exact ⟨pwd, h1, h4⟩

theorem C2_category_coverage_witness :
    ∃ pwd, generate_password 4 ⟨true, true, true, true, false⟩ pick0 id = Except.ok pwd ∧
      ∀ cat ∈ pool_parts ⟨true, true, true, true, false⟩, ∃ c, c ∈ pwd ∧ c ∈ cat :=
  C2_category_coverage 4 ⟨true, true, true, true, false⟩ pick0 id pick0_mem
    (fun l => List.Perm.refl l) (by norm_num) (by decide) (Or.inl rfl)

/-- C10 (no overshoot): for every call that passes the minimum-length check,
the number of enabled categories (at most 4) never exceeds the requested
length, the filler count `length - #categories` is never negative, and the
result has exactly the requested length — never more. -/
theorem C10_no_overshoot (length : Int) (policy : PasswordPolicy)
    (pick : Nat → List Char → Char) (shuffle : List Char → List Char)
    (hpick : ∀ i l, l ≠ [] → pick i l ∈ l)
    (hshuffle : ∀ l, List.Perm (shuffle l) l)
    (hlen : 4 ≤ length) (hcat : hasCategory policy) :
    (pool_parts policy).length ≤ 4 ∧
      ((pool_parts policy).length : Int) ≤ length ∧
      0 ≤ length - ((pool_parts policy).length : Int) ∧
      ∃ pwd, generate_password length policy pick shuffle = Except.ok pwd ∧
        (pwd.length : Int) = length := by
  have hle4 : (pool_parts policy).length ≤ 4 := pool_parts_length_le policy
  have hle4' : ((pool_parts policy).length : Int) ≤ 4 := by exact_mod_cast hle4
  obtain ⟨pwd, h1, h2, _, _⟩ :=
    generate_password_spec length policy pick shuffle hpick hshuffle hlen hcat
  exact ⟨hle4, by omega, by omega, pwd, h1, h2⟩

theorem C10_no_overshoot_witness :
    (pool_parts ⟨true, true, true, true, true⟩).length ≤ 4 ∧
      ((pool_parts ⟨true, true, true, true, true⟩).length : Int) ≤ 4 ∧
      0 ≤ (4 : Int) - ((pool_parts ⟨true, true, true, true, true⟩).length : Int) ∧
      ∃ pwd, generate_password 4 ⟨true, true, true, true, true⟩ pick0 id = Except.ok pwd ∧
        (pwd.length : Int) = 4 :=
  C10_no_overshoot 4 ⟨true, true, true, true, true⟩ pick0 id pick0_mem
    (fun l => List.Perm.refl l) (by norm_num) (Or.inl rfl)

/-- C3 (ambiguity exclusion): when `allow_ambiguous` is false, no character of
any category pool nor of the full pool belongs to `AMBIGUOUS`; when it is
true, every ambiguous character belonging to some enabled category is present
in the full pool. -/
theorem C3_ambiguity_exclusion (policy : PasswordPolicy) :
    (policy.allow_ambiguous = false →
      (∀ cat ∈ pool_parts policy, ∀ c ∈ cat, c ∉ AMBIGUOUS) ∧
      (∀ pool, build_full_pool policy = Except.ok pool → ∀ c ∈ pool, c ∉ AMBIGUOUS)) ∧
    (policy.allow_ambiguous = true →
      ∀ c ∈ AMBIGUOUS, ∀ cat ∈ pool_parts policy, c ∈ cat →
        ∀ pool, build_full_pool policy = Except.ok pool → c ∈ pool) := by
  constructor
  · intro hfalse
    have hcats : ∀ cat ∈ pool_parts policy, ∀ c ∈ cat, c ∉ AMBIGUOUS := by
      intro cat hc c hcc
      rcases mem_pool_parts.mp hc with ⟨_, rfl⟩ | ⟨_, rfl⟩ | ⟨_, rfl⟩ | ⟨_, rfl⟩ <;>
        (rw [hfalse] at hcc; simp [filter_ambiguous] at hcc; exact hcc.2)
    refine ⟨hcats, ?_⟩
    intro pool hp c hc
    rw [build_full_pool_ok_inv hp] at hc
    obtain ⟨cat, hcm, hcc⟩ := List.mem_flatten.mp (mem_sorted_dedup.mp hc)
    exact hcats cat hcm c hcc
  · intro _ c _ cat hcm hc pool hp
    rw [build_full_pool_ok_inv hp]
    exact mem_sorted_dedup.mpr (List.mem_flatten.mpr ⟨cat, hcm, hc⟩)

theorem C3_ambiguity_exclusion_witness : ('2' : Char) ∉ AMBIGUOUS :=
  ((C3_ambiguity_exclusion ⟨true, true, true, true, false⟩).1 rfl).1
    (filter_ambiguous digits false) (by decide) '2' (by decide)

/-- C4 (canonical pool): for every policy with at least one enabled category,
`build_full_pool` succeeds with a duplicate-free, sorted pool whose members
are exactly the characters of the enabled ambiguity-filtered category
alphabets, and equal policies yield equal pools. -/
theorem C4_canonical_pool (policy : PasswordPolicy) (hcat : hasCategory policy) :
    ∃ pool, build_full_pool policy = Except.ok pool ∧ pool.Nodup ∧
      List.Sorted (fun a b => a ≤ b) pool ∧
      (∀ c, c ∈ pool ↔ ∃ cat ∈ pool_parts policy, c ∈ cat) ∧
      (∀ q : PasswordPolicy, q = policy → build_full_pool q = Except.ok pool) := by
  refine ⟨_, build_full_pool_eq_ok hcat, sorted_dedup_nodup _, sorted_dedup_sorted _, ?_, ?_⟩
  · intro c
    rw [mem_sorted_dedup, List.mem_flatten]
  · intro q hq
    rw [hq]
    exact build_full_pool_eq_ok hcat

theorem C4_canonical_pool_witness :
    ∃ pool, build_full_pool ⟨true, false, true, false, false⟩ = Except.ok pool ∧
      pool.Nodup ∧ List.Sorted (fun a b => a ≤ b) pool ∧
      (∀ c, c ∈ pool ↔ ∃ cat ∈ pool_parts ⟨true, false, true, false, false⟩, c ∈ cat) ∧
      (∀ q : PasswordPolicy, q = ⟨true, false, true, false, false⟩ →
        build_full_pool q = Except.ok pool) :=
  C4_canonical_pool ⟨true, false, true, false, false⟩ (Or.inl rfl)

/-- C5 (rejection): `build_full_pool` with all four categories disabled
returns `noCategorySelected`, and `generate_password` with any length below
the minimum 4 returns `lengthTooShort`; being equalities of a function value,
no other outcome is possible for those inputs. -/
theorem C5_rejection :
    (∀ a : Bool, build_full_pool ⟨false, false, false, false, a⟩ =
      Except.error PoolError.noCategorySelected) ∧
    (∀ (length : Int) (policy : PasswordPolicy)
      (pick : Nat → List Char → Char) (shuffle : List Char → List Char),
      length < 4 →
      generate_password length policy pick shuffle =
        Except.error PoolError.lengthTooShort) := by
  constructor
  · intro a
    cases a <;> decide
  · intro length policy pick shuffle h
    have hm : require_min_length length = Except.error PoolError.lengthTooShort := by
      unfold require_min_length MIN_PASSWORD_LENGTH
      rw [if_pos (by omega)]
    simp [generate_password, hm]

theorem C5_rejection_witness :
    build_full_pool ⟨false, false, false, false, false⟩ =
      Except.error PoolError.noCategorySelected ∧
    generate_password 3 ⟨true, true, true, true, false⟩ pick0 id =
      Except.error PoolError.lengthTooShort :=
  ⟨C5_rejection.1 false,
   C5_rejection.2 3 ⟨true, true, true, true, false⟩ pick0 id (by norm_num)⟩

/-- C6 counterexample: `_category_pools` applied to the policy with all four
categories disabled returns `ok []` — it does not fail with
`noCategorySelected` as the claim states. -/
theorem C6_counterexample :
    category_pools ⟨false, false, false, false, false⟩ =
      Except.ok ([] : List (List Char)) ∧
    Except.ok ([] : List (List Char)) ≠
      (Except.error PoolError.noCategorySelected : Except PoolError (List (List Char))) := by
  exact ⟨by decide, by decide⟩

/-- C6 amended: `_category_pools` with zero enabled categories returns the
empty list of pools without raising; the zero-category
`noCategorySelected` error is raised by `build_full_pool` instead (which
`generate_password` also calls, so the generator still fails). -/
theorem C6_no_category (policy : PasswordPolicy)
    (h : policy.use_lower = false ∧ policy.use_upper = false ∧
      policy.use_digits = false ∧ policy.use_symbols = false) :
    category_pools policy = Except.ok ([] : List (List Char)) ∧
      build_full_pool policy = Except.error PoolError.noCategorySelected := by
  obtain ⟨h1, h2, h3, h4⟩ := h
  rcases policy with ⟨l, u, d, s, a⟩
  simp only at h1 h2 h3 h4
  subst h1 h2 h3 h4
  cases a <;> exact ⟨by decide, by decide⟩

theorem C6_no_category_witness :
    category_pools ⟨false, false, false, false, true⟩ = Except.ok ([] : List (List Char)) ∧
      build_full_pool ⟨false, false, false, false, true⟩ =
        Except.error PoolError.noCategorySelected :=
  C6_no_category ⟨false, false, false, false, true⟩ ⟨rfl, rfl, rfl, rfl⟩

/-- C7 (entropy estimator): `estimate_entropy_bits` returns 0 whenever
`length ≤ 0` or `pool_size ≤ 1` and `length * log2(pool_size)` otherwise; in
particular the four boundary values of the spec hold. -/
theorem C7_entropy_boundary :
    estimate_entropy_bits 0 10 = 0 ∧
    estimate_entropy_bits 10 1 = 0 ∧
    estimate_entropy_bits 10 2 = 10 ∧
    estimate_entropy_bits 8 4 = 16 ∧
    (∀ length pool_size : Int, (length ≤ 0 ∨ pool_size ≤ 1) →
      estimate_entropy_bits length pool_size = 0) ∧
    (∀ length pool_size : Int, 0 < length → 1 < pool_size →
      estimate_entropy_bits length pool_size =
        (length : ℝ) * Real.logb 2 (pool_size : ℝ)) := by
  have hlog2 : Real.logb 2 2 = 1 := Real.logb_self_eq_one (by norm_num)
  have hlog4 : Real.logb 2 4 = 2 := by
    rw [show (4 : ℝ) = 2 ^ (2 : ℕ) by norm_num, Real.logb_pow, hlog2]
    norm_num
  refine ⟨?_, ?_, ?_, ?_, ?_, ?_⟩
  · simp [estimate_entropy_bits]
  · simp [estimate_entropy_bits]
  · rw [estimate_entropy_bits, if_neg (by norm_num)]
    push_cast
    rw [hlog2]
    norm_num
  · rw [estimate_entropy_bits, if_neg (by norm_num)]
    push_cast
    rw [hlog4]
    norm_num
  · intro length pool_size h
    rw [estimate_entropy_bits, if_pos h]
  · intro length pool_size h1 h2
    rw [estimate_entropy_bits, if_neg (by omega)]

theorem C7_entropy_boundary_witness :
    estimate_entropy_bits (-3) 50 = 0 ∧
      estimate_entropy_bits 5 8 = (5 : ℝ) * Real.logb 2 (8 : ℝ) :=
  ⟨C7_entropy_boundary.2.2.2.2.1 (-3) 50 (Or.inl (by norm_num)),
   by
    have h := C7_entropy_boundary.2.2.2.2.2 5 8 (by norm_num) (by norm_num)
    simpa using h⟩

/-- C9 (emptied-category branch unreachable): for every policy, every enabled
built-in category alphabet remains non-empty after ambiguity filtering, so
neither `_category_pools` nor `build_full_pool` can ever return the
`emptyCategory` error. -/
theorem C9_empty_branch_unreachable (policy : PasswordPolicy) :
    (∀ cat ∈ pool_parts policy, cat ≠ []) ∧
      category_pools policy ≠ Except.error PoolError.emptyCategory ∧
      build_full_pool policy ≠ Except.error PoolError.emptyCategory := by
  refine ⟨pool_parts_all_ne_nil policy, ?_, ?_⟩
  · rw [category_pools_eq_ok]
    simp
  · by_cases hcat : hasCategory policy
    · rw [build_full_pool_eq_ok hcat]
      simp
    · have hnil := pool_parts_eq_nil hcat
      simp [build_full_pool, hnil]
